import Mathlib

/-!
Verification of `scripts/extract_survey_data.py` (survey aggregation tool).

The development shallowly embeds the script in Lean:

* Python dictionaries (`dict[str, str]`) become association lists with
  Python dict semantics: assignment updates the value in place when the key
  exists (keeping its insertion position) and appends otherwise, lookup
  returns the first (unique) matching entry, and key iteration order is
  insertion order.
* Python `Counter` objects become functions `String → Nat` (all keys start
  at 0, which matches `Counter.get(k, 0)` semantics and `counter[k] += 1`).
  The insertion order of the keys of `grade_counter` and `by_grade` is
  tracked separately in `AggState.gradeKeys`; both dictionaries acquire
  their keys at the same program point (the `for grade in grades` loop),
  in the same order, so a single list models both.
* `re.split(r'[,;/]+', s)` is embedded as `splitRuns`, splitting on maximal
  runs of the three separator characters, with the empty fields at the
  borders that the regex split produces.
* `str.strip` / `str.title` / `str.isalpha` are embedded over `List Char`
  (`pyStrip`, `pyTitle`); alphabetic and whitespace classes are the ASCII
  ones, which cover the vocabulary the script manipulates.
* fallible code (`raise ValueError`, `IndexError` from a bad shared-string
  index) becomes `Except String`.
-/

/-! ## Python string primitives -/

/-- ASCII whitespace stripped by Python `str.strip()`. -/
def isPyWS (c : Char) : Bool :=
  c = ' ' || c = '\t' || c = '\n' || c = '\r' || c = '\x0b' || c = '\x0c'

/-- Python `str.strip()` on a character list: drop whitespace from both ends. -/
def pyStripL (l : List Char) : List Char :=
  ((l.dropWhile isPyWS).reverse.dropWhile isPyWS).reverse

/-- Python `str.strip()`. -/
def pyStrip (s : String) : String := ⟨pyStripL s.data⟩

/-- Python `str.title()` worker: the flag records whether the previous
character was alphabetic; an alphabetic character is uppercased after a
non-alphabetic one and lowercased otherwise. -/
def pyTitleL : Bool → List Char → List Char
  | _, [] => []
  | prevAlpha, c :: cs =>
    if c.isAlpha then
      (if prevAlpha then c.toLower else c.toUpper) :: pyTitleL true cs
    else
      c :: pyTitleL false cs

/-- Python `str.title()`. -/
def pyTitle (s : String) : String := ⟨pyTitleL false s.data⟩

/-- The separator class of the regex `[,;/]+` in `normalize_grades`. -/
def isSep (c : Char) : Bool := c = ',' || c = ';' || c = '/'

/-- One step of `splitRuns`: scanning from the right, a separator closes the
current token unless the previous character was already a separator (so a
maximal run of separators produces a single split point, as the `+` in the
regex demands). -/
def splitRunsStep (c : Char) (acc : Bool × List Char × List (List Char)) :
    Bool × List Char × List (List Char) :=
  if isSep c then (true, [], if acc.1 then acc.2.2 else acc.2.1 :: acc.2.2)
  else (false, c :: acc.2.1, acc.2.2)

/-- Embedding of `re.split(r'[,;/]+', s)`: split on maximal runs of the
separator characters; a leading or trailing run yields an empty field, as
the regex split does. -/
def splitRuns (l : List Char) : List (List Char) :=
  let r := l.foldr splitRunsStep (false, [], [])
  r.2.1 :: r.2.2

/-! ## The script constants (`extract_survey_data.py`, lines 14-17) -/

def GRADE_FIELD : String := "Grado del alumno"

def Q1_FIELD : String := "¿Te gustaría que se realice en los siguientes ciclos escolares?"

def Q2_FIELD : String := "¿Consideras que el temario está de acuerdo con las necesidades los niñ@s?"

def ORDERED_GRADES : List String :=
  ["Primero", "Segundo", "Tercero", "Cuarto", "Quinto", "Sexto"]

/-! ## `normalize_grades` (lines 64-70) -/

/-- The list comprehension of line 65: tokens of the regex split whose strip
is non-empty, each mapped to `g.strip().title()`. -/
def gradeTokens (raw_grade : String) : List String :=
  (((splitRuns raw_grade.data).map (fun t => String.mk t)).filter
      (fun g => pyStrip g ≠ "")).map (fun g => pyTitle (pyStrip g))

/-- The de-duplication loop of lines 66-69: keep the first occurrence of
each grade, preserving order. -/
def normalize_grades (raw_grade : String) : List String :=
  (gradeTokens raw_grade).foldl (fun u g => if g ∈ u then u else u ++ [g]) []

/-! ## Python dictionaries as association lists -/

/-- A Python `dict[str, str]`. -/
abbrev Dict := List (String × String)

/-- Python `d.get(k, dflt)` / `d[k]`. -/
def dget (d : Dict) (k dflt : String) : String :=
  match d.find? (fun p => p.1 == k) with
  | some p => p.2
  | none => dflt

/-- Python `d.keys()` in insertion order. -/
def dkeys (d : Dict) : List String := d.map Prod.fst

/-- Python `d[k] = v`: update in place when the key exists (keeping its
position), append otherwise. -/
def dinsert : Dict → String → String → Dict
  | [], k, v => [(k, v)]
  | p :: d, k, v => if p.1 == k then (k, v) :: d else p :: dinsert d k v

/-! ## `col_number` (lines 20-24) -/

/-- Base-26 column label value, `value * 26 + (ord(char) - 64)` over the
characters. Values are integers, as in Python, so characters below `'@'`
contribute negatively rather than saturating. -/
def col_number (label : String) : Int :=
  label.data.foldl (fun v c => v * 26 + ((c.toNat : Int) - 64)) 0

/-! ## Aggregation state (the local variables of `transform`, lines 85-89) -/

/-- Counter increment `c[k] += 1`. -/
def bump (c : String → Nat) (k : String) : String → Nat :=
  fun x => if x = k then c x + 1 else c x

/-- Nested counter increment `f[g][k] += 1`. -/
def bump2 (f : String → String → Nat) (g k : String) : String → String → Nat :=
  fun x => if x = g then bump (f x) k else f x

/-- The mutable state of the row loop in `transform`: `valid_responses`,
the insertion order of the grade buckets (identical for `grade_counter`
and `by_grade`), and the counters.  `overall` is a dict with the two fixed
question keys, so it is two fields; `by_grade[g]` holds `responses` and two
per-question counters. -/
structure AggState where
  validResponses : Nat
  gradeKeys : List String
  gradeCount : String → Nat
  overall1 : String → Nat
  overall2 : String → Nat
  bgResponses : String → Nat
  bg1 : String → String → Nat
  bg2 : String → String → Nat

def initState : AggState :=
  { validResponses := 0
    gradeKeys := []
    gradeCount := fun _ => 0
    overall1 := fun _ => 0
    overall2 := fun _ => 0
    bgResponses := fun _ => 0
    bg1 := fun _ _ => 0
    bg2 := fun _ _ => 0 }

/-- The body of `for grade in grades` (lines 109-115): create/update the
bucket for `grade` in the histogram and in `by_grade`, and tally the
non-empty answers for that grade. -/
def processGrade (a1 a2 : String) (s : AggState) (g : String) : AggState :=
  { s with
    gradeKeys := if g ∈ s.gradeKeys then s.gradeKeys else s.gradeKeys ++ [g]
    gradeCount := bump s.gradeCount g
    bgResponses := bump s.bgResponses g
    bg1 := if a1 = "" then s.bg1 else bump2 s.bg1 g a1
    bg2 := if a2 = "" then s.bg2 else bump2 s.bg2 g a2 }

/-- The body of `for row in rows[1:]` (lines 90-115).  `gCol`, `q1Col`,
`q2Col` are the column letters resolved from the header (empty string when
the field name is absent). -/
def processRow (gCol q1Col q2Col : String) (s : AggState) (row : Dict) : AggState :=
  let grade_raw := pyStrip (dget row gCol "")
  let answer_1 := pyStrip (dget row q1Col "")
  let answer_2 := pyStrip (dget row q2Col "")
  if grade_raw = "" || (answer_1 = "" && answer_2 = "") then s
  else
    let grades := normalize_grades grade_raw
    if grades = [] then s
    else
      let s1 := { s with validResponses := s.validResponses + 1 }
      let s2 := { s1 with
        overall1 := if answer_1 = "" then s1.overall1 else bump s1.overall1 answer_1
        overall2 := if answer_2 = "" then s1.overall2 else bump s1.overall2 answer_2 }
      grades.foldl (processGrade answer_1 answer_2) s2

/-- The whole row loop. -/
def aggregate (gCol q1Col q2Col : String) (rows : List Dict) : AggState :=
  rows.foldl (processRow gCol q1Col q2Col) initState

/-! ## Payload construction (lines 117-158) -/

/-- The sort key of lines 119 and 138:
`ORDERED_GRADES.index(grade) if grade in ORDERED_GRADES else 99`. -/
def gradeKey (g : String) : Nat :=
  if g ∈ ORDERED_GRADES then ORDERED_GRADES.indexOf g else 99

/-- The comparison induced by the sort key. -/
def gradeLe (a b : String) : Prop := gradeKey a ≤ gradeKey b

instance : DecidableRel gradeLe := fun a b => Nat.decLe (gradeKey a) (gradeKey b)

/-- Python `sorted(l, key=gradeKey)`.  Python `sorted` is a stable sort;
insertion sort realizes the same (unique) stable result. -/
def sortGrades (l : List String) : List String :=
  List.insertionSort gradeLe l

/-- `yes_no` (lines 73-74): the serialized answers object, with exactly the
two keys `Si` and `No`. -/
def yes_no (c : String → Nat) : List (String × Nat) :=
  [("Si", c "Si"), ("No", c "No")]

/-- One entry of the `byGrade` mapping (lines 147-153). -/
structure GradeEntry where
  responses : Nat
  answers1 : List (String × Nat)
  answers2 : List (String × Nat)
deriving DecidableEq

/-- The aggregated payload (lines 122-156), with JSON objects rendered as
records and JSON ordered objects as association lists. -/
structure Payload where
  sourceFile : String
  validResponses : Nat
  questions : List String
  responses : Nat
  gradesDistribution : List (String × Nat)
  overallAnswers1 : List (String × Nat)
  overallAnswers2 : List (String × Nat)
  byGrade : List (String × GradeEntry)
deriving DecidableEq

/-- Lines 117-156: sort the grade buckets (`grade_counter` and `by_grade`
hold the same keys in the same insertion order, so both sorts traverse the
same list) and build the payload. -/
def buildPayload (src : String) (s : AggState) : Payload :=
  { sourceFile := src
    validResponses := s.validResponses
    questions := [Q1_FIELD, Q2_FIELD]
    responses := s.validResponses
    gradesDistribution := (sortGrades s.gradeKeys).map (fun g => (g, s.gradeCount g))
    overallAnswers1 := yes_no s.overall1
    overallAnswers2 := yes_no s.overall2
    byGrade := (sortGrades s.gradeKeys).map
      (fun g => (g, { responses := s.bgResponses g
                      answers1 := yes_no (s.bg1 g)
                      answers2 := yes_no (s.bg2 g) })) }

/-- Lines 82-83: the header columns in left-to-right order and the
`name_to_col` dict inverting the header row. -/
def nameToCol (header : Dict) : Dict :=
  let cols := List.insertionSort (fun a b => col_number a ≤ col_number b) (dkeys header)
  cols.foldl (fun m c => dinsert m (dget header c "") c) ([] : Dict)

/-- The column letter resolved for a field name, line 91-93 style:
`name_to_col.get(field, '')`. -/
def fieldCol (header : Dict) (field : String) : String :=
  dget (nameToCol header) field ""

/-- The aggregation state after the whole row loop of `transform`, for a
given header and data rows. -/
def aggOf (header : Dict) (dataRows : List Dict) : AggState :=
  aggregate (fieldCol header GRADE_FIELD) (fieldCol header Q1_FIELD)
    (fieldCol header Q2_FIELD) dataRows

/-- `transform` (lines 77-158). -/
def transform (rows : List Dict) (source_name : String) : Except String Payload :=
  match rows with
  | [] => Except.error "The sheet has no rows."
  | header :: dataRows =>
    Except.ok (buildPayload source_name (aggOf header dataRows))

/-! ## The worksheet reader, `load_sheet_rows` (lines 27-61)

The archive and XML layers are represented by their parsed shape: a row is
a list of cell elements; a cell element carries its reference attribute
`r`, its type attribute `t`, the optional `v` element with its optional
text, and the optional `is` element with its optional `t` child and text
(`ElementTree` gives `None` for a missing attribute, element or text). -/

structure XmlCell where
  ref : Option String
  ctype : Option String
  vTag : Option (Option String)
  isTag : Option (Option (Option String))

/-- Python truthiness of an optional string (`None` and `""` are falsy). -/
def pyTruthy : Option String → Bool
  | none => false
  | some s => !(s == "")

/-- Line 44: the column letters, all non-alphabetic characters stripped
from the (possibly absent) reference attribute. -/
def colOf (cell : XmlCell) : String :=
  ⟨((cell.ref.getD "").data.filter Char.isAlpha)⟩

/-- Python `int(str)`: optional surrounding whitespace, an optional sign,
then decimal digits (digit-group underscores are not modeled). -/
def digitsVal (ds : List Char) : Int :=
  ds.foldl (fun v c => v * 10 + ((c.toNat : Int) - 48)) 0

def pyInt? (s : String) : Option Int :=
  match pyStripL s.data with
  | [] => none
  | '-' :: ds => if ds ≠ [] ∧ ds.all Char.isDigit then some (-(digitsVal ds)) else none
  | '+' :: ds => if ds ≠ [] ∧ ds.all Char.isDigit then some (digitsVal ds) else none
  | ds => if ds ≠ [] ∧ ds.all Char.isDigit then some (digitsVal ds) else none

/-- Python list indexing `l[i]`: negative indices count from the end;
anything outside `[-len, len)` raises `IndexError`. -/
def pyIndex (l : List String) (i : Int) : Except String String :=
  let j : Int := if i < 0 then (l.length : Int) + i else i
  if 0 ≤ j ∧ j < (l.length : Int) then Except.ok (l.getD j.toNat "")
  else Except.error "IndexError: list index out of range"

/-- Lines 45-56: the effective string value of a cell, by the three-branch
priority rule.  A shared-string cell parses its `v` text as an integer and
indexes the shared string table; a failure there is a raised exception. -/
def cellValue (shared : List String) (cell : XmlCell) : Except String String :=
  if cell.ctype == some "s" && pyTruthy (cell.vTag.getD none) then
    match pyInt? ((cell.vTag.getD none).getD "") with
    | some i => pyIndex shared i
    | none => Except.error "ValueError: invalid literal for int"
  else if cell.ctype == some "inlineStr" && cell.isTag.isSome then
    let inner := cell.isTag.getD none
    Except.ok (if pyTruthy (inner.getD none) then (inner.getD none).getD "" else "")
  else if pyTruthy (cell.vTag.getD none) then
    Except.ok ((cell.vTag.getD none).getD "")
  else Except.ok ""

/-- Lines 42-58: the inner cell loop, threading the `parsed` dict;
`parsed[col] = value.strip()`. -/
def parseCells (shared : List String) : List XmlCell → Dict → Except String Dict
  | [], d => Except.ok d
  | c :: cs, d =>
    match cellValue shared c with
    | Except.error e => Except.error e
    | Except.ok v => parseCells shared cs (dinsert d (colOf c) (pyStrip v))

/-- Lines 40-59: one parsed row, starting from an empty dict. -/
def parseRow (shared : List String) (cells : List XmlCell) : Except String Dict :=
  parseCells shared cells []

/-- Lines 40-61: the row loop, collecting parsed rows in document order. -/
def load_sheet_rows (shared : List String) : List (List XmlCell) → Except String (List Dict)
  | [] => Except.ok []
  | r :: rs =>
    match parseRow shared r with
    | Except.error e => Except.error e
    | Except.ok d =>
      match load_sheet_rows shared rs with
      | Except.error e => Except.error e
      | Except.ok ds => Except.ok (d :: ds)

/-- `main` (lines 161-169) up to the point where the output file would be
written: read the sheet, transform, and only then produce the payload to
serialize.  Any error short-circuits, so no output is produced. -/
def runPipeline (shared : List String) (xrows : List (List XmlCell))
    (src : String) : Except String Payload := do
  let rows ← load_sheet_rows shared xrows
  transform rows src

/-! ## Basic facts about the de-duplication loop -/

/-- First-occurrence de-duplication, worded as the specification words it:
keep each grade the first time it is seen and drop its later repetitions. -/
def dedupSpec : List String → List String
  | [] => []
  | x :: xs => x :: dedupSpec (xs.filter (fun y => y ≠ x))
termination_by l => l.length
decreasing_by
  simp only [List.length_cons]
  exact Nat.lt_succ_of_le (List.length_filter_le _ _)

theorem foldDedup_eq (l : List String) (u : List String) :
    l.foldl (fun u g => if g ∈ u then u else u ++ [g]) u
      = u ++ dedupSpec (l.filter (fun g => g ∉ u)) := by
  induction l generalizing u with
  | nil => simp [dedupSpec]
  | cons g gs ih =>
    simp only [List.foldl_cons, List.filter_cons]
    by_cases h : g ∈ u
    · simp [h, ih u]
    · rw [if_neg h]
      have hd : decide (g ∉ u) = true := by simpa using h
      have hfil : List.filter (fun x => decide (x ∉ u ++ [g])) gs
          = List.filter (fun y => y ≠ g) (List.filter (fun x => decide (x ∉ u)) gs) := by
        rw [List.filter_filter]
        refine List.filter_congr (fun x _ => ?_)
        by_cases hx : x = g <;> by_cases hxu : x ∈ u <;> simp [hx, hxu]
      rw [hd, if_pos rfl, ih (u ++ [g]), hfil]
      simp only [dedupSpec]
      simp

theorem normalize_grades_eq_dedupSpec (raw : String) :
    normalize_grades raw = dedupSpec (gradeTokens raw) := by
  have h := foldDedup_eq (gradeTokens raw) []
  simpa [normalize_grades] using h

theorem foldDedup_nodup (l : List String) (u : List String) (hu : u.Nodup) :
    (l.foldl (fun u g => if g ∈ u then u else u ++ [g]) u).Nodup := by
  induction l generalizing u with
  | nil => simpa
  | cons g gs ih =>
    simp only [List.foldl_cons]
    by_cases h : g ∈ u
    · rw [if_pos h]; exact ih u hu
    · rw [if_neg h]
      exact ih (u ++ [g]) (by simp [List.nodup_append, hu, h])

theorem normalize_grades_nodup (raw : String) : (normalize_grades raw).Nodup :=
  foldDedup_nodup _ [] List.nodup_nil

theorem mem_foldDedup (l : List String) (u : List String) (g : String) :
    g ∈ l.foldl (fun u g => if g ∈ u then u else u ++ [g]) u ↔ g ∈ u ∨ g ∈ l := by
  induction l generalizing u with
  | nil => simp
  | cons x xs ih =>
    simp only [List.foldl_cons]
    by_cases h : x ∈ u
    · rw [if_pos h, ih]
      simp only [List.mem_cons]
      constructor
      · rintro (hg | hg)
        · exact Or.inl hg
        · exact Or.inr (Or.inr hg)
      · rintro (hg | rfl | hg)
        · exact Or.inl hg
        · exact Or.inl h
        · exact Or.inr hg
    · rw [if_neg h, ih]
      simp only [List.mem_append, List.mem_singleton, List.mem_cons]
      tauto

theorem mem_normalize_grades (raw : String) (g : String) :
    g ∈ normalize_grades raw ↔ g ∈ gradeTokens raw := by
  have h := mem_foldDedup (gradeTokens raw) [] g
  simpa [normalize_grades] using h

/-! ## C5: grade normalization -/

/-- The Grade Set as the specification words it: split the raw field on the
separator characters, trim each token, drop the tokens that are empty after
trimming, convert to title case, and de-duplicate keeping first occurrences. -/
def gradeSetSpec (raw : String) : List String :=
  dedupSpec (((((splitRuns raw.data).map (fun t => String.mk t)).map pyStrip).filter
      (fun g => g ≠ "")).map pyTitle)

/-- C5: grade normalization splits the raw grade field on runs of the
separator characters, trims and title-cases each token, drops empty tokens,
and de-duplicates preserving first-seen order; in particular tokens that
differ only by letter case land in the identical bucket "Sexto". -/
theorem C5_normalize_grades_spec :
    (∀ raw : String, normalize_grades raw = gradeSetSpec raw)
    ∧ normalize_grades "sexto" = ["Sexto"]
    ∧ normalize_grades "Sexto" = ["Sexto"]
    ∧ normalize_grades "sexto, Sexto" = ["Sexto"] := by
  refine ⟨fun raw => ?_, by decide, by decide, by decide⟩
  rw [normalize_grades_eq_dedupSpec, gradeSetSpec]
  congr 1
  simp only [gradeTokens, List.filter_map, List.map_map]
  rfl

/-! ## Component lemmas for the grade loop -/

theorem foldPG_validResponses (a1 a2 : String) (l : List String) (s : AggState) :
    (l.foldl (processGrade a1 a2) s).validResponses = s.validResponses := by
  induction l generalizing s with
  | nil => rfl
  | cons g gs ih => simpa [processGrade] using ih (processGrade a1 a2 s g)

theorem foldPG_overall1 (a1 a2 : String) (l : List String) (s : AggState) :
    (l.foldl (processGrade a1 a2) s).overall1 = s.overall1 := by
  induction l generalizing s with
  | nil => rfl
  | cons g gs ih => simpa [processGrade] using ih (processGrade a1 a2 s g)

theorem foldPG_overall2 (a1 a2 : String) (l : List String) (s : AggState) :
    (l.foldl (processGrade a1 a2) s).overall2 = s.overall2 := by
  induction l generalizing s with
  | nil => rfl
  | cons g gs ih => simpa [processGrade] using ih (processGrade a1 a2 s g)

theorem foldPG_gradeCount (a1 a2 : String) (l : List String) (s : AggState) :
    (l.foldl (processGrade a1 a2) s).gradeCount = l.foldl bump s.gradeCount := by
  induction l generalizing s with
  | nil => rfl
  | cons g gs ih => simpa [processGrade] using ih (processGrade a1 a2 s g)

theorem foldPG_bgResponses (a1 a2 : String) (l : List String) (s : AggState) :
    (l.foldl (processGrade a1 a2) s).bgResponses = l.foldl bump s.bgResponses := by
  induction l generalizing s with
  | nil => rfl
  | cons g gs ih => simpa [processGrade] using ih (processGrade a1 a2 s g)

theorem foldPG_gradeKeys (a1 a2 : String) (l : List String) (s : AggState) :
    (l.foldl (processGrade a1 a2) s).gradeKeys
      = l.foldl (fun ks g => if g ∈ ks then ks else ks ++ [g]) s.gradeKeys := by
  induction l generalizing s with
  | nil => rfl
  | cons g gs ih => simpa [processGrade] using ih (processGrade a1 a2 s g)

theorem foldPG_bg1 (a1 a2 : String) (l : List String) (s : AggState) :
    (l.foldl (processGrade a1 a2) s).bg1
      = l.foldl (fun f g => if a1 = "" then f else bump2 f g a1) s.bg1 := by
  induction l generalizing s with
  | nil => rfl
  | cons g gs ih => simpa [processGrade] using ih (processGrade a1 a2 s g)

theorem foldPG_bg2 (a1 a2 : String) (l : List String) (s : AggState) :
    (l.foldl (processGrade a1 a2) s).bg2
      = l.foldl (fun f g => if a2 = "" then f else bump2 f g a2) s.bg2 := by
  induction l generalizing s with
  | nil => rfl
  | cons g gs ih => simpa [processGrade] using ih (processGrade a1 a2 s g)

theorem foldl_bump_not_mem (l : List String) (c : String → Nat) (g : String)
    (h : g ∉ l) : l.foldl bump c g = c g := by
  induction l generalizing c with
  | nil => rfl
  | cons x xs ih =>
    have hx : g ≠ x := fun hgx => h (hgx ▸ List.mem_cons_self x xs)
    have := ih (bump c x) (fun hm => h (List.mem_cons_of_mem x hm))
    simpa [bump, hx] using this

theorem foldl_bump_mem (l : List String) (c : String → Nat) (g : String)
    (h : g ∈ l) (hnd : l.Nodup) : l.foldl bump c g = c g + 1 := by
  induction l generalizing c with
  | nil => cases h
  | cons x xs ih =>
    rcases List.mem_cons.mp h with rfl | hg
    · have hnot : g ∉ xs := (List.nodup_cons.mp hnd).1
      have := foldl_bump_not_mem xs (bump c g) g hnot
      simpa [bump] using this
    · have hx : g ≠ x := by
        rintro rfl
        exact (List.nodup_cons.mp hnd).1 hg
      have := ih (bump c x) hg (List.nodup_cons.mp hnd).2
      simpa [bump, hx] using this

/-! ## C1: the row filter -/

/-- C1: a data row leaves the aggregation state untouched exactly when its
grade field is empty after trimming, or both tracked question fields are
empty after trimming, or its Grade Set is empty after normalization; every
other data row bumps the valid-response counter by exactly one. -/
theorem C1_row_filter (gCol q1Col q2Col : String) (s : AggState) (row : Dict) :
    (pyStrip (dget row gCol "") = ""
        ∨ (pyStrip (dget row q1Col "") = "" ∧ pyStrip (dget row q2Col "") = "")
        ∨ normalize_grades (pyStrip (dget row gCol "")) = [] →
      processRow gCol q1Col q2Col s row = s)
    ∧ (¬ (pyStrip (dget row gCol "") = ""
        ∨ (pyStrip (dget row q1Col "") = "" ∧ pyStrip (dget row q2Col "") = "")
        ∨ normalize_grades (pyStrip (dget row gCol "")) = []) →
      (processRow gCol q1Col q2Col s row).validResponses = s.validResponses + 1) := by
  constructor
  · intro h
    rcases h with h | ⟨h1, h2⟩ | h
    · simp [processRow, h]
    · simp [processRow, h1, h2]
    · by_cases hg : pyStrip (dget row gCol "") = ""
      · simp [processRow, hg]
      · by_cases h12 : pyStrip (dget row q1Col "") = "" ∧ pyStrip (dget row q2Col "") = ""
        · simp [processRow, h12.1, h12.2]
        · simp only [processRow, h]
          split
          · rfl
          · simp
  · intro h
    push_neg at h
    obtain ⟨hg, ha, hn⟩ := h
    have ha2 : ¬ (pyStrip (dget row q1Col "") = "" ∧ pyStrip (dget row q2Col "") = "") :=
      fun hc => ha hc.1 hc.2
    rcases not_and_or.mp ha2 with h1 | h1 <;>
    · have hcond : (decide (pyStrip (dget row gCol "") = "")
          || (decide (pyStrip (dget row q1Col "") = "")
              && decide (pyStrip (dget row q2Col "") = ""))) = false := by
        simp [hg, h1]
      simp [processRow, hcond, hn, foldPG_validResponses]

/-- Witness for C1 at a concrete valid row. -/
theorem C1_row_filter_witness :
    (processRow "A" "B" "C" initState [("A", "Primero"), ("B", "Si")]).validResponses
      = initState.validResponses + 1 :=
  (C1_row_filter "A" "B" "C" initState [("A", "Primero"), ("B", "Si")]).2 (by decide)

/-! ## C2: counting for multi-grade rows -/

/-- C2: a valid row whose Grade Set has N distinct grades bumps the grade
histogram and the per-grade response counters by exactly one for each of
the N grades, bumps the valid-response counter (and the serialized overall
response count) by exactly one rather than N, and bumps the overall counter
of each non-empty answer literal by exactly one. -/
theorem C2_multi_grade_counts (gCol q1Col q2Col : String) (s : AggState) (row : Dict)
    (hg : pyStrip (dget row gCol "") ≠ "")
    (ha : ¬ (pyStrip (dget row q1Col "") = "" ∧ pyStrip (dget row q2Col "") = ""))
    (hn : normalize_grades (pyStrip (dget row gCol "")) ≠ []) :
    (processRow gCol q1Col q2Col s row).validResponses = s.validResponses + 1
    ∧ (∀ src, (buildPayload src (processRow gCol q1Col q2Col s row)).responses
        = s.validResponses + 1)
    ∧ (∀ g ∈ normalize_grades (pyStrip (dget row gCol "")),
        (processRow gCol q1Col q2Col s row).gradeCount g = s.gradeCount g + 1
        ∧ (processRow gCol q1Col q2Col s row).bgResponses g = s.bgResponses g + 1)
    ∧ (pyStrip (dget row q1Col "") ≠ "" →
        (processRow gCol q1Col q2Col s row).overall1 (pyStrip (dget row q1Col ""))
          = s.overall1 (pyStrip (dget row q1Col "")) + 1)
    ∧ (pyStrip (dget row q2Col "") ≠ "" →
        (processRow gCol q1Col q2Col s row).overall2 (pyStrip (dget row q2Col ""))
          = s.overall2 (pyStrip (dget row q2Col "")) + 1) := by
  have hcond : (decide (pyStrip (dget row gCol "") = "")
      || (decide (pyStrip (dget row q1Col "") = "")
          && decide (pyStrip (dget row q2Col "") = ""))) = false := by
    rcases not_and_or.mp ha with h1 | h1 <;> simp [hg, h1]
  have hbody : processRow gCol q1Col q2Col s row
      = (normalize_grades (pyStrip (dget row gCol ""))).foldl
          (processGrade (pyStrip (dget row q1Col "")) (pyStrip (dget row q2Col "")))
          { s with
            validResponses := s.validResponses + 1
            overall1 := if pyStrip (dget row q1Col "") = "" then s.overall1
              else bump s.overall1 (pyStrip (dget row q1Col ""))
            overall2 := if pyStrip (dget row q2Col "") = "" then s.overall2
              else bump s.overall2 (pyStrip (dget row q2Col "")) } := by
    simp [processRow, hcond, hn]
  refine ⟨?_, ?_, ?_, ?_, ?_⟩
  · rw [hbody, foldPG_validResponses]
  · intro src
    rw [buildPayload, hbody]
    simp [foldPG_validResponses]
  · intro g hgmem
    rw [hbody, foldPG_gradeCount, foldPG_bgResponses]
    constructor
    · exact foldl_bump_mem _ _ _ hgmem (normalize_grades_nodup _)
    · exact foldl_bump_mem _ _ _ hgmem (normalize_grades_nodup _)
  · intro h1
    rw [hbody, foldPG_overall1]
    simp [h1, bump]
  · intro h2
    rw [hbody, foldPG_overall2]
    simp [h2, bump]

/-- Witness for C2: the row with the grade token repeated, "Primero,
Primero", counts once for the bucket Primero and once overall. -/
theorem C2_multi_grade_counts_witness :
    (processRow "A" "B" "C" initState [("A", "Primero, Primero"), ("B", "Si")]).validResponses
        = initState.validResponses + 1
    ∧ (processRow "A" "B" "C" initState
        [("A", "Primero, Primero"), ("B", "Si")]).gradeCount "Primero"
        = initState.gradeCount "Primero" + 1 := by
  have h := C2_multi_grade_counts "A" "B" "C" initState
    [("A", "Primero, Primero"), ("B", "Si")] (by decide) (by decide) (by decide)
  exact ⟨h.1, (h.2.2.1 "Primero" (by decide)).1⟩

/-! ## C3: only the literals Si and No are serialized -/

/-- Case analysis of one row-loop iteration: the row is either skipped
(state unchanged) or fully processed. -/
theorem processRow_eq_cases (gCol q1Col q2Col : String) (s : AggState) (row : Dict) :
    processRow gCol q1Col q2Col s row = s
    ∨ processRow gCol q1Col q2Col s row
      = (normalize_grades (pyStrip (dget row gCol ""))).foldl
          (processGrade (pyStrip (dget row q1Col "")) (pyStrip (dget row q2Col "")))
          { s with
            validResponses := s.validResponses + 1
            overall1 := if pyStrip (dget row q1Col "") = "" then s.overall1
              else bump s.overall1 (pyStrip (dget row q1Col ""))
            overall2 := if pyStrip (dget row q2Col "") = "" then s.overall2
              else bump s.overall2 (pyStrip (dget row q2Col "")) } := by
  by_cases hc : (decide (pyStrip (dget row gCol "") = "")
      || (decide (pyStrip (dget row q1Col "") = "")
          && decide (pyStrip (dget row q2Col "") = ""))) = true
  · exact Or.inl (by simp [processRow, hc])
  · by_cases hn : normalize_grades (pyStrip (dget row gCol "")) = []
    · exact Or.inl (by simp [processRow, hn])
    · refine Or.inr ?_
      have hc' : (decide (pyStrip (dget row gCol "") = "")
          || (decide (pyStrip (dget row q1Col "") = "")
              && decide (pyStrip (dget row q2Col "") = ""))) = false :=
        Bool.not_eq_true _ ▸ Bool.eq_false_iff.mpr (fun h => hc h)
      simp [processRow, hc', hn]

theorem yes_no_fold_bump2 (a : String) (h1 : a ≠ "Si") (h2 : a ≠ "No")
    (l : List String) (f : String → String → Nat) (g : String) :
    yes_no ((l.foldl (fun f g => if a = "" then f else bump2 f g a) f) g)
      = yes_no (f g) := by
  induction l generalizing f with
  | nil => rfl
  | cons x xs ih =>
    rw [List.foldl_cons, ih]
    by_cases ha : a = ""
    · simp [ha]
    · by_cases hx : g = x
      · subst hx
        simp [ha, yes_no, bump2, bump, Ne.symm h1, Ne.symm h2]
      · simp [ha, yes_no, bump2, bump, hx]

/-- C3: every serialized answers object has exactly the two keys Si and No;
an answer literal other than Si and No is counted in neither key at any
aggregation level; and such an answer is not an error (the transform still
succeeds on any non-empty row list). -/
theorem C3_answers_si_no :
    (∀ rows src p, transform rows src = Except.ok p →
      p.overallAnswers1.map Prod.fst = ["Si", "No"]
      ∧ p.overallAnswers2.map Prod.fst = ["Si", "No"]
      ∧ ∀ e ∈ p.byGrade, e.2.answers1.map Prod.fst = ["Si", "No"]
          ∧ e.2.answers2.map Prod.fst = ["Si", "No"])
    ∧ (∀ gCol q1Col q2Col s row,
        (pyStrip (dget row q1Col "") ≠ "Si" → pyStrip (dget row q1Col "") ≠ "No" →
          yes_no (processRow gCol q1Col q2Col s row).overall1 = yes_no s.overall1
          ∧ ∀ g, yes_no ((processRow gCol q1Col q2Col s row).bg1 g) = yes_no (s.bg1 g))
        ∧ (pyStrip (dget row q2Col "") ≠ "Si" → pyStrip (dget row q2Col "") ≠ "No" →
          yes_no (processRow gCol q1Col q2Col s row).overall2 = yes_no s.overall2
          ∧ ∀ g, yes_no ((processRow gCol q1Col q2Col s row).bg2 g) = yes_no (s.bg2 g)))
    ∧ (∀ rows src, rows ≠ [] → ∃ p, transform rows src = Except.ok p) := by
  refine ⟨?_, ?_, ?_⟩
  · rintro rows src p h
    match rows, h with
    | header :: dataRows, h =>
      have hp : p = buildPayload src (aggOf header dataRows) := by
        simp only [transform] at h
        exact (Except.ok.inj h).symm
      subst hp
      refine ⟨rfl, rfl, ?_⟩
      intro e he
      simp only [buildPayload] at he
      rcases List.mem_map.mp he with ⟨g, hg, rfl⟩
      exact ⟨rfl, rfl⟩
  · intro gCol q1Col q2Col s row
    constructor
    · intro h1 h2
      rcases processRow_eq_cases gCol q1Col q2Col s row with he | he
      · rw [he]
        exact ⟨rfl, fun g => rfl⟩
      · rw [he, foldPG_overall1, foldPG_bg1]
        constructor
        · by_cases ha : pyStrip (dget row q1Col "") = ""
          · simp [ha]
          · simp [ha, yes_no, bump, Ne.symm h1, Ne.symm h2]
        · intro g
          exact yes_no_fold_bump2 _ h1 h2 _ _ g
    · intro h1 h2
      rcases processRow_eq_cases gCol q1Col q2Col s row with he | he
      · rw [he]
        exact ⟨rfl, fun g => rfl⟩
      · rw [he, foldPG_overall2, foldPG_bg2]
        constructor
        · by_cases ha : pyStrip (dget row q2Col "") = ""
          · simp [ha]
          · simp [ha, yes_no, bump, Ne.symm h1, Ne.symm h2]
        · intro g
          exact yes_no_fold_bump2 _ h1 h2 _ _ g
  · rintro rows src h
    match rows with
    | header :: dataRows => exact ⟨_, rfl⟩

/-- Witness for C3 at a concrete row with the unrecognized answer value
"Tal vez". -/
theorem C3_answers_si_no_witness :
    yes_no (processRow "A" "B" "C" initState
        [("A", "Primero"), ("B", "Tal vez")]).overall1 = yes_no initState.overall1 :=
  ((C3_answers_si_no.2.1 "A" "B" "C" initState
      [("A", "Primero"), ("B", "Tal vez")]).1 (by decide) (by decide)).1

/-! ## C6: zero rows versus header-only -/

/-- C6: zero rows is a fatal, descriptive error, while a header-only sheet
succeeds with zero valid responses, no grade buckets and an empty
histogram. -/
theorem C6_no_rows_vs_header_only :
    (∀ src, transform [] src = Except.error "The sheet has no rows.")
    ∧ (∀ src header, ∃ p, transform [header] src = Except.ok p
        ∧ p.validResponses = 0 ∧ p.byGrade = [] ∧ p.gradesDistribution = []) :=
  ⟨fun _ => rfl,
   fun src _header => ⟨buildPayload src initState, rfl, rfl, rfl, rfl⟩⟩

/-! ## C7: a field name absent from the header -/

theorem dget_cons (p : String × String) (d : Dict) (K dflt : String) :
    dget (p :: d) K dflt = if p.1 == K then p.2 else dget d K dflt := by
  by_cases h : p.1 == K
  · simp [dget, List.find?_cons_of_pos _ h, h]
  · rw [if_neg h]
    rw [dget, @List.find?_cons_of_neg _ (fun q => q.1 == K) p d h]
    rfl

theorem dget_dinsert (d : Dict) (k v K dflt : String) :
    dget (dinsert d k v) K dflt = if K = k then v else dget d K dflt := by
  induction d with
  | nil =>
    by_cases h : K = k
    · simp [dinsert, dget, List.find?_cons_of_pos, h]
    · simp [dinsert, dget_cons, dget, Ne.symm h, h]
  | cons p d ih =>
    by_cases hpk : p.1 == k
    · have hpk' : p.1 = k := by simpa using hpk
      rw [dinsert, if_pos hpk, dget_cons]
      by_cases hKk : K = k
      · simp [hKk]
      · have : (k == K) = false := by simpa using Ne.symm hKk
        rw [this, if_neg hKk, dget_cons]
        simp [hpk', (by simpa using Ne.symm hKk : (k == K) = false)]
    · rw [dinsert, if_neg (by simpa using hpk), dget_cons, dget_cons, ih]
      by_cases hpK : p.1 == K
      · have hpK' : p.1 = K := by simpa using hpK
        have hKk : ¬ K = k := by
          intro hc
          exact hpk (by simp [hpK', hc])
        simp [hpK, hKk]
      · simp [hpK]

theorem dget_no_key (row : Dict) (k dflt : String) (h : k ∉ dkeys row) :
    dget row k dflt = dflt := by
  induction row with
  | nil => rfl
  | cons p d ih =>
    have hpk : ¬ p.1 == k := by
      intro hc
      exact h (by simp [dkeys, List.mem_cons, (by simpa using hc : p.1 = k)])
    rw [dget_cons, if_neg hpk]
    exact ih (fun hm => h (by simp [dkeys] at hm ⊢; exact Or.inr hm))

theorem fieldCol_of_absent (header : Dict) (field : String)
    (h : ∀ c ∈ dkeys header, dget header c "" ≠ field) :
    fieldCol header field = "" := by
  have hgen : ∀ (cols : List String) (m0 : Dict), (∀ c ∈ cols, dget header c "" ≠ field) →
      dget (cols.foldl (fun m c => dinsert m (dget header c "") c) m0) field ""
        = dget m0 field "" := by
    intro cols
    induction cols with
    | nil => intro m0 _; rfl
    | cons c cs ih =>
      intro m0 hc
      rw [List.foldl_cons, ih _ (fun x hx => hc x (List.mem_cons_of_mem _ hx)),
        dget_dinsert, if_neg (fun he => hc c (List.mem_cons_self _ _) he.symm)]
  have hcols : ∀ c ∈ List.insertionSort (fun a b => col_number a ≤ col_number b) (dkeys header),
      dget header c "" ≠ field := by
    intro c hc
    exact h c ((List.perm_insertionSort _ _).mem_iff.mp hc)
  rw [fieldCol, nameToCol]
  exact hgen _ [] hcols

theorem aggregate_all_skipped (q1Col q2Col : String) (dataRows : List Dict)
    (hr : ∀ row ∈ dataRows, "" ∉ dkeys row) :
    aggregate "" q1Col q2Col dataRows = initState := by
  rw [aggregate]
  have hgen : ∀ (rows : List Dict) (s : AggState), (∀ row ∈ rows, "" ∉ dkeys row) →
      rows.foldl (processRow "" q1Col q2Col) s = s := by
    intro rows
    induction rows with
    | nil => intro s _; rfl
    | cons row rest ih =>
      intro s hrows
      rw [List.foldl_cons]
      have hd : dget row "" "" = "" := dget_no_key _ _ _ (hrows row (List.mem_cons_self _ _))
      have hskip : processRow "" q1Col q2Col s row = s := by
        simp [processRow, hd, pyStrip, pyStripL]
      rw [hskip]
      exact ih s (fun r hr2 => hrows r (List.mem_cons_of_mem _ hr2))
  exact hgen dataRows initState hr

/-- Counterexample to C7 as stated: the header lacks the grade field name,
yet the data row is not skipped, because a cell stored under the empty
column key (a cell element with no reference attribute) is what the failed
lookup then finds. -/
theorem C7_counterexample :
    (∀ c ∈ dkeys [("A", "x")], dget [("A", "x")] c "" ≠ GRADE_FIELD)
    ∧ Except.map Payload.validResponses
        (transform [[("A", "x")], [("", "Primero"), ("A", "Si")]] "t.xlsx")
      = Except.ok 1 := by
  exact ⟨by decide, rfl⟩

/-- C7 as amended: when the header lacks the grade field name and no data
row stores a value under the empty column key, the lookup resolves to the
empty string, every data row is skipped, and the output is the same
empty-result payload as the header-only case. -/
theorem C7_missing_grade_field (header : Dict) (dataRows : List Dict) (src : String)
    (hh : ∀ c ∈ dkeys header, dget header c "" ≠ GRADE_FIELD)
    (hr : ∀ row ∈ dataRows, "" ∉ dkeys row) :
    transform (header :: dataRows) src = transform [header] src
    ∧ ∃ p, transform (header :: dataRows) src = Except.ok p
        ∧ p.validResponses = 0 ∧ p.byGrade = [] ∧ p.gradesDistribution = [] := by
  have hg : fieldCol header GRADE_FIELD = "" := fieldCol_of_absent header _ hh
  have hagg : aggOf header dataRows = initState := by
    rw [aggOf, hg]
    exact aggregate_all_skipped _ _ dataRows hr
  have ht : transform (header :: dataRows) src = Except.ok (buildPayload src initState) := by
    simp only [transform, hagg]
  refine ⟨?_, buildPayload src initState, ht, rfl, rfl, rfl⟩
  rw [ht]
  rfl

/-- Witness for the amended C7 at a concrete input. -/
theorem C7_missing_grade_field_witness :
    ∃ p, transform [[("A", "x")], [("A", "Si")]] "t.xlsx" = Except.ok p
        ∧ p.validResponses = 0 ∧ p.byGrade = [] ∧ p.gradesDistribution = [] :=
  (C7_missing_grade_field [("A", "x")] [[("A", "Si")]] "t.xlsx"
    (by decide) (by decide)).2

/-! ## C4: ordering of the grade buckets -/

theorem gradeKey_lt_of_mem {g : String} (h : g ∈ ORDERED_GRADES) : gradeKey g < 6 := by
  rw [gradeKey, if_pos h]
  exact List.indexOf_lt_length.mpr h

theorem gradeKey_of_not_mem {g : String} (h : g ∉ ORDERED_GRADES) : gradeKey g = 99 := by
  rw [gradeKey, if_neg h]

theorem orderedInsert_append_left (x : String) (l1 l2 : List String)
    (h : ∀ y ∈ l1, ¬ gradeLe x y) :
    (l1 ++ l2).orderedInsert gradeLe x = l1 ++ l2.orderedInsert gradeLe x := by
  induction l1 with
  | nil => rfl
  | cons y ys ih =>
    rw [List.cons_append, List.orderedInsert,
      if_neg (h y (List.mem_cons_self _ _)), ih (fun z hz => h z (List.mem_cons_of_mem _ hz)),
      List.cons_append]

theorem orderedInsert_eq_cons (x : String) (l : List String)
    (h : ∀ y ∈ l, gradeLe x y) :
    l.orderedInsert gradeLe x = x :: l := by
  cases l with
  | nil => rfl
  | cons y ys => rw [List.orderedInsert, if_pos (h y (List.mem_cons_self _ _))]

theorem orderedInsert_filter (x : String) (xs : List String) :
    ∀ (C : List String) (tail : List String),
    C.Pairwise (fun a b => gradeKey a < gradeKey b) → x ∈ C → x ∉ xs →
    (∀ y ∈ tail, gradeKey x < gradeKey y) →
    (C.filter (fun g => g ∈ xs) ++ tail).orderedInsert gradeLe x
      = C.filter (fun g => g ∈ x :: xs) ++ tail := by
  intro C
  induction C with
  | nil => intro tail _ hx; cases hx
  | cons c C' ih =>
    intro tail hP hx hxxs htail
    have hP' := List.pairwise_cons.mp hP
    have hxC' : x ∉ C' ∨ True := Or.inr trivial
    by_cases hcx : c = x
    · subst hcx
      have hcxs : (decide (c ∈ xs)) = false := by simpa using hxxs
      have hccons : (decide (c ∈ c :: xs)) = true := by simp
      rw [List.filter_cons, hcxs, if_neg (by simp), List.filter_cons, hccons, if_pos rfl]
      have hCfil : C'.filter (fun g => g ∈ c :: xs) = C'.filter (fun g => g ∈ xs) := by
        refine List.filter_congr (fun y hy => ?_)
        have hyx : y ≠ c := by
          intro hyc
          subst hyc
          exact absurd (hP'.1 y hy) (lt_irrefl _)
        simp [List.mem_cons, hyx]
      rw [hCfil, List.cons_append]
      refine orderedInsert_eq_cons c _ (fun y hy => ?_)
      rcases List.mem_append.mp hy with hy1 | hy2
      · have hyC' : y ∈ C' := List.mem_of_mem_filter hy1
        exact le_of_lt (hP'.1 y hyC')
      · exact le_of_lt (htail y hy2)
    · have hxC' : x ∈ C' := by
        rcases List.mem_cons.mp hx with h1 | h1
        · exact absurd h1.symm hcx
        · exact h1
      have hkey : gradeKey c < gradeKey x := hP'.1 x hxC'
      have hccons2 : (decide (c ∈ x :: xs)) = (decide (c ∈ xs)) := by
        simp [List.mem_cons, hcx]
      by_cases hc : c ∈ xs
      · have hd : (decide (c ∈ xs)) = true := by simpa using hc
        rw [List.filter_cons, hd, if_pos rfl, List.filter_cons, hccons2, hd, if_pos rfl,
          List.cons_append, List.orderedInsert,
          if_neg (by exact fun hle => absurd (lt_of_lt_of_le hkey hle) (lt_irrefl _)),
          ih tail hP'.2 hxC' hxxs htail, List.cons_append]
      · have hd : (decide (c ∈ xs)) = false := by simpa using hc
        rw [List.filter_cons, hd, if_neg (by simp), List.filter_cons, hccons2, hd,
          if_neg (by simp), ih tail hP'.2 hxC' hxxs htail]

theorem sortGrades_eq (l : List String) (h : l.Nodup) :
    sortGrades l = ORDERED_GRADES.filter (fun g => g ∈ l)
      ++ l.filter (fun g => g ∉ ORDERED_GRADES) := by
  induction l with
  | nil => simp [sortGrades]
  | cons x xs ih =>
    have hnd := List.nodup_cons.mp h
    rw [sortGrades, List.insertionSort]
    rw [show List.insertionSort gradeLe xs = sortGrades xs from rfl, ih hnd.2]
    by_cases hx : x ∈ ORDERED_GRADES
    · have hfil : (x :: xs).filter (fun g => g ∉ ORDERED_GRADES)
          = xs.filter (fun g => g ∉ ORDERED_GRADES) := by
        rw [List.filter_cons, if_neg (by simpa using hx)]
      rw [hfil]
      refine orderedInsert_filter x xs ORDERED_GRADES _ (by decide) hx hnd.1
        (fun y hy => ?_)
      have hy' : y ∉ ORDERED_GRADES := by
        have := List.of_mem_filter hy
        simpa using this
      rw [gradeKey_of_not_mem hy']
      exact lt_trans (gradeKey_lt_of_mem hx) (by norm_num)
    · have hOGfil : ORDERED_GRADES.filter (fun g => g ∈ x :: xs)
          = ORDERED_GRADES.filter (fun g => g ∈ xs) := by
        refine List.filter_congr (fun y hy => ?_)
        have hyx : y ≠ x := fun hyx => hx (hyx ▸ hy)
        simp [List.mem_cons, hyx]
      have hfil : (x :: xs).filter (fun g => g ∉ ORDERED_GRADES)
          = x :: xs.filter (fun g => g ∉ ORDERED_GRADES) := by
        rw [List.filter_cons, if_pos (by simpa using hx)]
      rw [hOGfil, hfil]
      rw [orderedInsert_append_left x _ _ (fun y hy => ?_)]
      · rw [orderedInsert_eq_cons x _ (fun y hy => ?_)]
        have hy' : y ∉ ORDERED_GRADES := by
          have := List.of_mem_filter hy
          simpa using this
        rw [gradeLe, gradeKey_of_not_mem hx, gradeKey_of_not_mem hy']
      · intro hle
        have hyOG : y ∈ ORDERED_GRADES := List.mem_of_mem_filter hy
        rw [gradeLe, gradeKey_of_not_mem hx] at hle
        have hlt : gradeKey y < 99 := lt_trans (gradeKey_lt_of_mem hyOG) (by norm_num)
        exact absurd hle (not_le.mpr hlt)

theorem processRow_gradeKeys_nodup (gCol q1Col q2Col : String) (s : AggState) (row : Dict)
    (h : s.gradeKeys.Nodup) :
    (processRow gCol q1Col q2Col s row).gradeKeys.Nodup := by
  rcases processRow_eq_cases gCol q1Col q2Col s row with he | he
  · rw [he]; exact h
  · rw [he, foldPG_gradeKeys]
    exact foldDedup_nodup _ _ h

theorem aggregate_gradeKeys_nodup (gCol q1Col q2Col : String) (rows : List Dict) :
    (aggregate gCol q1Col q2Col rows).gradeKeys.Nodup := by
  rw [aggregate]
  have hgen : ∀ (rs : List Dict) (s : AggState), s.gradeKeys.Nodup →
      (rs.foldl (processRow gCol q1Col q2Col) s).gradeKeys.Nodup := by
    intro rs
    induction rs with
    | nil => intro s hs; exact hs
    | cons r rest ih =>
      intro s hs
      exact ih _ (processRow_gradeKeys_nodup _ _ _ _ _ hs)
  exact hgen rows initState List.nodup_nil

/-- C4: in both the grade histogram and the byGrade mapping, the canonical
grades present appear first, in canonical-sequence order, and all grades
outside the canonical six follow, in their first-seen (discovery) order:
`(aggOf header dataRows).gradeKeys` is exactly the bucket-creation
(discovery) order of the grades. -/
theorem C4_grade_ordering (header : Dict) (dataRows : List Dict) (src : String) (p : Payload)
    (h : transform (header :: dataRows) src = Except.ok p) :
    p.gradesDistribution.map Prod.fst
      = ORDERED_GRADES.filter (fun g => g ∈ (aggOf header dataRows).gradeKeys)
        ++ (aggOf header dataRows).gradeKeys.filter (fun g => g ∉ ORDERED_GRADES)
    ∧ p.byGrade.map Prod.fst
      = ORDERED_GRADES.filter (fun g => g ∈ (aggOf header dataRows).gradeKeys)
        ++ (aggOf header dataRows).gradeKeys.filter (fun g => g ∉ ORDERED_GRADES) := by
  have hp : p = buildPayload src (aggOf header dataRows) := by
    simp only [transform] at h
    exact (Except.ok.inj h).symm
  subst hp
  have hs : sortGrades (aggOf header dataRows).gradeKeys
      = ORDERED_GRADES.filter (fun g => g ∈ (aggOf header dataRows).gradeKeys)
        ++ (aggOf header dataRows).gradeKeys.filter (fun g => g ∉ ORDERED_GRADES) :=
    sortGrades_eq _ (aggregate_gradeKeys_nodup _ _ _ _)
  constructor
  · rw [buildPayload]
    simpa [List.map_map, Function.comp_def] using hs
  · rw [buildPayload]
    simpa [List.map_map, Function.comp_def] using hs

/-- Witness for C4 at a concrete input with one canonical and one
unrecognized grade, discovered in the opposite order. -/
theorem C4_grade_ordering_witness :
    (buildPayload "t" (aggOf [("A", GRADE_FIELD), ("B", Q1_FIELD)]
        [[("A", "Zeta, Primero"), ("B", "Si")]])).gradesDistribution.map Prod.fst
      = ORDERED_GRADES.filter (fun g =>
          g ∈ (aggOf [("A", GRADE_FIELD), ("B", Q1_FIELD)]
            [[("A", "Zeta, Primero"), ("B", "Si")]]).gradeKeys)
        ++ (aggOf [("A", GRADE_FIELD), ("B", Q1_FIELD)]
            [[("A", "Zeta, Primero"), ("B", "Si")]]).gradeKeys.filter
          (fun g => g ∉ ORDERED_GRADES) :=
  (C4_grade_ordering [("A", GRADE_FIELD), ("B", Q1_FIELD)]
    [[("A", "Zeta, Primero"), ("B", "Si")]] "t" _ rfl).1

/-! ## C10: internal consistency of the payload -/

/-- The counter invariants maintained by the row loop: the histogram and
the per-grade response counters agree everywhere, every created bucket has
at least one response, and for each grade and question the Si and No
tallies together never exceed that bucket's responses. -/
def StateInv (s : AggState) : Prop :=
  (∀ g, s.gradeCount g = s.bgResponses g)
  ∧ (∀ g ∈ s.gradeKeys, 1 ≤ s.gradeCount g)
  ∧ (∀ g, s.bg1 g "Si" + s.bg1 g "No" ≤ s.bgResponses g)
  ∧ (∀ g, s.bg2 g "Si" + s.bg2 g "No" ≤ s.bgResponses g)

theorem bump_le (c : String → Nat) (g x : String) : c x ≤ bump c g x := by
  unfold bump
  by_cases h : x = g <;> simp [h]

theorem bump_eq_of_ne (c : String → Nat) (g x : String) (h : x ≠ g) :
    bump c g x = c x := by
  unfold bump
  rw [if_neg h]

theorem bump_eq_self (c : String → Nat) (g : String) : bump c g g = c g + 1 := by
  unfold bump
  rw [if_pos rfl]

theorem bump_pair_le (c : String → Nat) (a : String) :
    bump c a "Si" + bump c a "No" ≤ c "Si" + c "No" + 1 := by
  by_cases h1 : ("Si" : String) = a
  · by_cases h2 : ("No" : String) = a
    · exact absurd (h1.trans h2.symm) (by decide : ("Si" : String) ≠ "No")
    · simp only [bump, if_pos h1, if_neg h2]
      omega
  · by_cases h2 : ("No" : String) = a
    · simp only [bump, if_neg h1, if_pos h2]
      omega
    · simp only [bump, if_neg h1, if_neg h2]
      omega

theorem stateInv_processGrade (a1 a2 g : String) (s : AggState) (h : StateInv s) :
    StateInv (processGrade a1 a2 s g) := by
  obtain ⟨h1, h2, h3, h4⟩ := h
  refine ⟨?_, ?_, ?_, ?_⟩
  · intro x
    show bump s.gradeCount g x = bump s.bgResponses g x
    unfold bump
    rw [h1 x]
  · intro x hx
    have hxmem : x ∈ s.gradeKeys ∨ x = g := by
      by_cases hgk : g ∈ s.gradeKeys
      · left
        simpa [processGrade, hgk] using hx
      · have hxa : x ∈ s.gradeKeys ++ [g] := by simpa [processGrade, hgk] using hx
        rcases List.mem_append.mp hxa with hm | hm
        · exact Or.inl hm
        · exact Or.inr (List.mem_singleton.mp hm)
    show 1 ≤ bump s.gradeCount g x
    rcases hxmem with hm | rfl
    · exact le_trans (h2 x hm) (bump_le _ _ _)
    · rw [bump_eq_self]
      omega
  · intro x
    show (if a1 = "" then s.bg1 else bump2 s.bg1 g a1) x "Si"
        + (if a1 = "" then s.bg1 else bump2 s.bg1 g a1) x "No"
      ≤ bump s.bgResponses g x
    by_cases ha : a1 = ""
    · rw [if_pos ha]
      exact le_trans (h3 x) (bump_le _ _ _)
    · rw [if_neg ha]
      show (if x = g then bump (s.bg1 x) a1 else s.bg1 x) "Si"
          + (if x = g then bump (s.bg1 x) a1 else s.bg1 x) "No"
        ≤ bump s.bgResponses g x
      by_cases hxg : x = g
      · subst hxg
        rw [if_pos rfl, bump_eq_self]
        exact le_trans (bump_pair_le _ _) (Nat.succ_le_succ (h3 x))
      · rw [if_neg hxg, bump_eq_of_ne _ _ _ hxg]
        exact h3 x
  · intro x
    show (if a2 = "" then s.bg2 else bump2 s.bg2 g a2) x "Si"
        + (if a2 = "" then s.bg2 else bump2 s.bg2 g a2) x "No"
      ≤ bump s.bgResponses g x
    by_cases ha : a2 = ""
    · rw [if_pos ha]
      exact le_trans (h4 x) (bump_le _ _ _)
    · rw [if_neg ha]
      show (if x = g then bump (s.bg2 x) a2 else s.bg2 x) "Si"
          + (if x = g then bump (s.bg2 x) a2 else s.bg2 x) "No"
        ≤ bump s.bgResponses g x
      by_cases hxg : x = g
      · subst hxg
        rw [if_pos rfl, bump_eq_self]
        exact le_trans (bump_pair_le _ _) (Nat.succ_le_succ (h4 x))
      · rw [if_neg hxg, bump_eq_of_ne _ _ _ hxg]
        exact h4 x

theorem stateInv_foldPG (a1 a2 : String) (l : List String) (s : AggState)
    (h : StateInv s) : StateInv (l.foldl (processGrade a1 a2) s) := by
  induction l generalizing s with
  | nil => exact h
  | cons g gs ih => exact ih _ (stateInv_processGrade a1 a2 g s h)

theorem stateInv_processRow (gCol q1Col q2Col : String) (s : AggState) (row : Dict)
    (h : StateInv s) : StateInv (processRow gCol q1Col q2Col s row) := by
  rcases processRow_eq_cases gCol q1Col q2Col s row with he | he
  · rw [he]; exact h
  · rw [he]
    exact stateInv_foldPG _ _ _ _ h

theorem stateInv_aggregate (gCol q1Col q2Col : String) (rows : List Dict) :
    StateInv (aggregate gCol q1Col q2Col rows) := by
  rw [aggregate]
  have hgen : ∀ (rs : List Dict) (s : AggState), StateInv s →
      StateInv (rs.foldl (processRow gCol q1Col q2Col) s) := by
    intro rs
    induction rs with
    | nil => intro s hs; exact hs
    | cons r rest ih => intro s hs; exact ih _ (stateInv_processRow _ _ _ _ _ hs)
  refine hgen rows initState ?_
  refine ⟨fun g => rfl, fun g hg => absurd hg (List.not_mem_nil g), fun g => ?_, fun g => ?_⟩
  · exact Nat.le_refl 0
  · exact Nat.le_refl 0

/-- C10: in every produced payload, the histogram names coincide with the
byGrade keys (even as ordered lists), each histogram value equals that
bucket's response count and is at least one, and per grade and question the
Si plus No tallies never exceed the bucket's responses. -/
theorem C10_payload_invariants (header : Dict) (dataRows : List Dict) (src : String)
    (p : Payload) (h : transform (header :: dataRows) src = Except.ok p) :
    p.gradesDistribution.map Prod.fst = p.byGrade.map Prod.fst
    ∧ (∀ g n, (g, n) ∈ p.gradesDistribution →
        1 ≤ n ∧ ∃ e, (g, e) ∈ p.byGrade ∧ e.responses = n)
    ∧ (∀ g e, (g, e) ∈ p.byGrade →
        (∃ x y, e.answers1 = [("Si", x), ("No", y)] ∧ x + y ≤ e.responses)
        ∧ (∃ x y, e.answers2 = [("Si", x), ("No", y)] ∧ x + y ≤ e.responses)) := by
  have hp : p = buildPayload src (aggOf header dataRows) := by
    simp only [transform] at h
    exact (Except.ok.inj h).symm
  subst hp
  obtain ⟨h1, h2, h3, h4⟩ := stateInv_aggregate (fieldCol header GRADE_FIELD)
    (fieldCol header Q1_FIELD) (fieldCol header Q2_FIELD) dataRows
  refine ⟨?_, ?_, ?_⟩
  · simp [buildPayload, List.map_map, Function.comp_def]
  · rintro g n hgn
    simp only [buildPayload] at hgn
    rcases List.mem_map.mp hgn with ⟨g', hg', heq⟩
    have hgg : g' = g := congrArg Prod.fst heq
    subst hgg
    have hn : n = (aggOf header dataRows).gradeCount g' := (congrArg Prod.snd heq).symm
    subst hn
    have hmem : g' ∈ (aggOf header dataRows).gradeKeys := by
      have hperm := List.perm_insertionSort gradeLe (aggOf header dataRows).gradeKeys
      exact hperm.mem_iff.mp hg'
    refine ⟨h2 g' hmem, ?_⟩
    refine ⟨{ responses := (aggOf header dataRows).bgResponses g'
              answers1 := yes_no ((aggOf header dataRows).bg1 g')
              answers2 := yes_no ((aggOf header dataRows).bg2 g') }, ?_, (h1 g').symm⟩
    simp only [buildPayload]
    exact List.mem_map.mpr ⟨g', hg', rfl⟩
  · rintro g e hge
    simp only [buildPayload] at hge
    rcases List.mem_map.mp hge with ⟨g', hg', heq⟩
    have hgg : g' = g := congrArg Prod.fst heq
    subst hgg
    have he : e = { responses := (aggOf header dataRows).bgResponses g'
                    answers1 := yes_no ((aggOf header dataRows).bg1 g')
                    answers2 := yes_no ((aggOf header dataRows).bg2 g') } :=
      (congrArg Prod.snd heq).symm
    subst he
    exact ⟨⟨_, _, rfl, h3 g'⟩, ⟨_, _, rfl, h4 g'⟩⟩

/-- Witness for C10 at a concrete input. -/
theorem C10_payload_invariants_witness :
    (buildPayload "t" (aggOf [("A", GRADE_FIELD), ("B", Q1_FIELD)]
        [[("A", "Primero"), ("B", "Si")]])).gradesDistribution.map Prod.fst
      = (buildPayload "t" (aggOf [("A", GRADE_FIELD), ("B", Q1_FIELD)]
        [[("A", "Primero"), ("B", "Si")]])).byGrade.map Prod.fst :=
  (C10_payload_invariants [("A", GRADE_FIELD), ("B", Q1_FIELD)]
    [[("A", "Primero"), ("B", "Si")]] "t" _ rfl).1

/-! ## C8: shape of the parsed row mappings -/

theorem head?_dropWhile_false (l : List Char) (c : Char)
    (h : (l.dropWhile isPyWS).head? = some c) : isPyWS c = false := by
  have hh := List.head?_dropWhile_not isPyWS l
  rw [h] at hh
  exact hh

theorem dropWhile_eq_self_of_head (l : List Char)
    (h : ∀ c, l.head? = some c → isPyWS c = false) : l.dropWhile isPyWS = l := by
  cases l with
  | nil => rfl
  | cons c cs =>
    rw [List.dropWhile_cons, if_neg (by simp [h c rfl])]

theorem getLast?_dropWhile (p : Char → Bool) (l : List Char) (h : l.dropWhile p ≠ []) :
    (l.dropWhile p).getLast? = l.getLast? := by
  induction l with
  | nil => exact absurd rfl h
  | cons c cs ih =>
    rw [List.dropWhile_cons] at h ⊢
    by_cases hc : p c = true
    · rw [if_pos hc] at h ⊢
      rw [ih h]
      cases cs with
      | nil => exact (h rfl).elim
      | cons d ds => exact List.getLast?_cons_cons.symm
    · rw [if_neg hc] at h ⊢

theorem pyStripL_idem (l : List Char) : pyStripL (pyStripL l) = pyStripL l := by
  have hAdef : pyStripL l = ((l.dropWhile isPyWS).reverse.dropWhile isPyWS).reverse := rfl
  have hstep1 : (pyStripL l).dropWhile isPyWS = pyStripL l := by
    refine dropWhile_eq_self_of_head _ (fun c hc => ?_)
    rw [hAdef, List.head?_reverse] at hc
    have hne : (l.dropWhile isPyWS).reverse.dropWhile isPyWS ≠ [] := by
      intro he
      rw [he] at hc
      cases hc
    rw [getLast?_dropWhile _ _ hne, List.getLast?_reverse] at hc
    exact head?_dropWhile_false _ _ hc
  have hstep2 : (pyStripL l).reverse.dropWhile isPyWS = (pyStripL l).reverse := by
    rw [hAdef, List.reverse_reverse]
    refine dropWhile_eq_self_of_head _ (fun c hc => ?_)
    exact head?_dropWhile_false _ _ hc
  show (((pyStripL l).dropWhile isPyWS).reverse.dropWhile isPyWS).reverse = pyStripL l
  rw [hstep1, hstep2, List.reverse_reverse]

theorem pyStrip_idem (s : String) : pyStrip (pyStrip s) = pyStrip s :=
  congrArg String.mk (pyStripL_idem s.data)

theorem mem_dkeys_dinsert (d : Dict) (k v x : String) :
    x ∈ dkeys (dinsert d k v) ↔ x ∈ dkeys d ∨ x = k := by
  induction d with
  | nil => simp [dinsert, dkeys]
  | cons p d ih =>
    by_cases hp : p.1 == k
    · have hp' : p.1 = k := by simpa using hp
      rw [dinsert, if_pos hp]
      simp [dkeys, hp']
      tauto
    · rw [dinsert, if_neg hp]
      simp only [dkeys, List.map_cons, List.mem_cons] at ih ⊢
      rw [ih]
      tauto

theorem mem_dinsert (d : Dict) (k v : String) (q : String × String)
    (h : q ∈ dinsert d k v) : q ∈ d ∨ q = (k, v) := by
  induction d with
  | nil =>
    simp only [dinsert] at h
    exact Or.inr (List.mem_singleton.mp h)
  | cons p d ih =>
    by_cases hp : p.1 == k
    · rw [dinsert, if_pos hp] at h
      rcases List.mem_cons.mp h with rfl | hm
      · exact Or.inr rfl
      · exact Or.inl (List.mem_cons_of_mem _ hm)
    · rw [dinsert, if_neg hp] at h
      rcases List.mem_cons.mp h with rfl | hm
      · exact Or.inl (List.mem_cons_self _ _)
      · rcases ih hm with hm2 | hm2
        · exact Or.inl (List.mem_cons_of_mem _ hm2)
        · exact Or.inr hm2

theorem parseCells_ok_keys (shared : List String) :
    ∀ (cells : List XmlCell) (d0 d : Dict), parseCells shared cells d0 = Except.ok d →
    ∀ col, col ∈ dkeys d ↔ col ∈ dkeys d0 ∨ ∃ cell ∈ cells, colOf cell = col := by
  intro cells
  induction cells with
  | nil =>
    intro d0 d h col
    rw [parseCells] at h
    cases h
    simp
  | cons c cs ih =>
    intro d0 d h col
    rw [parseCells] at h
    cases hv : cellValue shared c with
    | error e => rw [hv] at h; cases h
    | ok v =>
      rw [hv] at h
      rw [ih _ _ h col, mem_dkeys_dinsert]
      constructor
      · rintro ((hm | rfl) | ⟨cell, hcell, rfl⟩)
        · exact Or.inl hm
        · exact Or.inr ⟨c, List.mem_cons_self _ _, rfl⟩
        · exact Or.inr ⟨cell, List.mem_cons_of_mem _ hcell, rfl⟩
      · rintro (hm | ⟨cell, hcell, rfl⟩)
        · exact Or.inl (Or.inl hm)
        · rcases List.mem_cons.mp hcell with rfl | hcell2
          · exact Or.inl (Or.inr rfl)
          · exact Or.inr ⟨cell, hcell2, rfl⟩

theorem dget_parseCells_untouched (shared : List String) :
    ∀ (cells : List XmlCell) (d0 d : Dict) (k dflt : String),
    parseCells shared cells d0 = Except.ok d →
    (∀ c ∈ cells, colOf c ≠ k) → dget d k dflt = dget d0 k dflt := by
  intro cells
  induction cells with
  | nil =>
    intro d0 d k dflt h _
    rw [parseCells] at h
    cases h
    rfl
  | cons c cs ih =>
    intro d0 d k dflt h hcols
    rw [parseCells] at h
    cases hv : cellValue shared c with
    | error e => rw [hv] at h; cases h
    | ok v =>
      rw [hv] at h
      rw [ih _ _ _ _ h (fun x hx => hcols x (List.mem_cons_of_mem _ hx)), dget_dinsert,
        if_neg (fun he => hcols c (List.mem_cons_self _ _) he.symm)]

theorem parseCells_stored (shared : List String) :
    ∀ (cells : List XmlCell) (d0 d : Dict), parseCells shared cells d0 = Except.ok d →
    (cells.map colOf).Nodup →
    ∀ cell ∈ cells, ∀ v, cellValue shared cell = Except.ok v →
    ∀ dflt, dget d (colOf cell) dflt = pyStrip v := by
  intro cells
  induction cells with
  | nil =>
    intro d0 d _ _ cell hcell
    cases hcell
  | cons c cs ih =>
    intro d0 d h hnd cell hcell v hv dflt
    rw [parseCells] at h
    cases hv0 : cellValue shared c with
    | error e => rw [hv0] at h; cases h
    | ok v0 =>
      rw [hv0] at h
      have hnd2 : (colOf c :: cs.map colOf).Nodup := by simpa using hnd
      have hnd' := List.nodup_cons.mp hnd2
      rcases List.mem_cons.mp hcell with rfl | hcell2
      · have hvv : v = v0 := by
          rw [hv0] at hv
          exact (Except.ok.inj hv).symm
        subst hvv
        rw [dget_parseCells_untouched shared cs _ _ _ _ h
            (fun x hx hex => hnd'.1 (by rw [← hex]; exact List.mem_map_of_mem colOf hx)),
          dget_dinsert, if_pos rfl]
      · exact ih _ _ h hnd'.2 cell hcell2 v hv dflt

theorem parseCells_trimmed (shared : List String) :
    ∀ (cells : List XmlCell) (d0 d : Dict), (∀ q ∈ d0, pyStrip q.2 = q.2) →
    parseCells shared cells d0 = Except.ok d → ∀ q ∈ d, pyStrip q.2 = q.2 := by
  intro cells
  induction cells with
  | nil =>
    intro d0 d h0 h
    rw [parseCells] at h
    cases h
    exact h0
  | cons c cs ih =>
    intro d0 d h0 h
    rw [parseCells] at h
    cases hv : cellValue shared c with
    | error e => rw [hv] at h; cases h
    | ok v =>
      rw [hv] at h
      refine ih _ _ ?_ h
      intro q hq
      rcases mem_dinsert _ _ _ _ hq with hm | rfl
      · exact h0 q hm
      · exact pyStrip_idem v

/-- C8: a parsed row has a key exactly for the cell elements present in the
XML row; under distinct column references, each present cell (whatever its
content, empty included) is stored under its column as the trim of its
effective value; a present cell with empty or missing value and inline text
has effective value the empty string; and every stored value is trimmed. -/
theorem C8_parsed_row_shape (shared : List String) (cells : List XmlCell) (d : Dict)
    (h : parseRow shared cells = Except.ok d)
    (hnd : (cells.map colOf).Nodup) :
    (∀ col, col ∈ dkeys d ↔ ∃ cell ∈ cells, colOf cell = col)
    ∧ (∀ cell ∈ cells, ∀ v, cellValue shared cell = Except.ok v →
        ∀ dflt, dget d (colOf cell) dflt = pyStrip v)
    ∧ (∀ cell : XmlCell, pyTruthy (cell.vTag.getD none) = false →
        pyTruthy ((cell.isTag.getD none).getD none) = false →
        cellValue shared cell = Except.ok "")
    ∧ (∀ q ∈ d, pyStrip q.2 = q.2) := by
  refine ⟨?_, ?_, ?_, ?_⟩
  · intro col
    rw [parseCells_ok_keys shared cells [] d h col]
    simp [dkeys]
  · exact fun cell hcell v hv dflt => parseCells_stored shared cells [] d h hnd cell hcell v hv dflt
  · intro cell hv hi
    rw [cellValue]
    simp [hv, hi]
  · exact fun q hq => parseCells_trimmed shared cells [] d (by simp) h q hq

/-- Witness for C8 on a two-cell row: one ordinary value cell and one cell
whose value tag is present but empty. -/
theorem C8_parsed_row_shape_witness :
    ("A" ∈ dkeys [("A", "hi"), ("B", "")]
      ↔ ∃ cell ∈ [(⟨some "A1", none, some (some " hi "), none⟩ : XmlCell),
          (⟨some "B1", none, some none, none⟩ : XmlCell)], colOf cell = "A") :=
  (C8_parsed_row_shape []
    [⟨some "A1", none, some (some " hi "), none⟩, ⟨some "B1", none, some none, none⟩]
    [("A", "hi"), ("B", "")] rfl (by decide)).1 "A"

/-! ## C9: out-of-range shared-string index -/

/-- A cell marked as a shared-string reference whose parsed integer index
does not designate an entry of the shared string table (outside the valid
Python index range, negative indices counting from the end). -/
def badSharedCell (shared : List String) (cell : XmlCell) : Prop :=
  cell.ctype = some "s"
  ∧ ∃ txt, cell.vTag = some (some txt) ∧ txt ≠ ""
      ∧ ∃ i : Int, pyInt? txt = some i
          ∧ (i < -(shared.length : Int) ∨ (shared.length : Int) ≤ i)

theorem cellValue_bad (shared : List String) (cell : XmlCell)
    (h : badSharedCell shared cell) :
    ∃ e, cellValue shared cell = Except.error e := by
  obtain ⟨hty, txt, hv, hne, i, hi, hrange⟩ := h
  have htruthy : pyTruthy (some txt) = true := by simp [pyTruthy, hne]
  refine ⟨"IndexError: list index out of range", ?_⟩
  rw [cellValue, hty, hv]
  rw [if_pos (by simp [htruthy])]
  have hgd : ((some (some txt) : Option (Option String)).getD none).getD "" = txt := rfl
  rw [hgd, hi]
  simp only [pyIndex]
  rw [if_neg ?_]
  have hlen : (0 : Int) ≤ (shared.length : Int) := Int.ofNat_nonneg _
  rcases hrange with hr | hr
  · have hi0 : i < 0 := by omega
    rw [if_pos hi0]
    rintro ⟨h0, _⟩
    omega
  · have hi0 : ¬ i < 0 := by omega
    rw [if_neg hi0]
    rintro ⟨_, hlt⟩
    omega

theorem parseCells_bad (shared : List String) :
    ∀ (cells : List XmlCell) (d0 : Dict), (∃ c ∈ cells, badSharedCell shared c) →
    ∃ e, parseCells shared cells d0 = Except.error e := by
  intro cells
  induction cells with
  | nil =>
    rintro d0 ⟨c, hc, _⟩
    cases hc
  | cons c cs ih =>
    rintro d0 ⟨x, hx, hbad⟩
    rw [parseCells]
    cases hv : cellValue shared c with
    | error e => exact ⟨e, rfl⟩
    | ok v =>
      rcases List.mem_cons.mp hx with rfl | hx2
      · obtain ⟨e, he⟩ := cellValue_bad shared x hbad
        rw [hv] at he
        cases he
      · exact ih _ ⟨x, hx2, hbad⟩

theorem load_sheet_rows_bad (shared : List String) :
    ∀ (xrows : List (List XmlCell)), (∃ r ∈ xrows, ∃ c ∈ r, badSharedCell shared c) →
    ∃ e, load_sheet_rows shared xrows = Except.error e := by
  intro xrows
  induction xrows with
  | nil =>
    rintro ⟨r, hr, _⟩
    cases hr
  | cons r rs ih =>
    rintro ⟨x, hx, hbad⟩
    rw [load_sheet_rows]
    rcases List.mem_cons.mp hx with rfl | hx2
    · obtain ⟨e, he⟩ := parseCells_bad shared x [] hbad
      rw [parseRow] at *
      rw [he]
      exact ⟨e, rfl⟩
    · cases hp : parseRow shared r with
      | error e => exact ⟨e, rfl⟩
      | ok d =>
        obtain ⟨e, he⟩ := ih ⟨x, hx2, hbad⟩
        rw [he]
        exact ⟨e, rfl⟩

/-- C9: a shared-string cell whose integer index is outside the valid range
of the shared string table makes the reader fail with an error that
propagates through the whole pipeline, so no payload is produced and no
value is silently substituted. -/
theorem C9_bad_shared_index (shared : List String) (xrows : List (List XmlCell))
    (src : String) (h : ∃ r ∈ xrows, ∃ c ∈ r, badSharedCell shared c) :
    ∃ e, runPipeline shared xrows src = Except.error e := by
  obtain ⟨e, he⟩ := load_sheet_rows_bad shared xrows h
  exact ⟨e, by rw [runPipeline, he]; rfl⟩

/-- Witness for C9: index 0 into an empty shared string table. -/
theorem C9_bad_shared_index_witness :
    ∃ e, runPipeline [] [[⟨some "A1", some "s", some (some "0"), none⟩]] "f.xlsx"
      = Except.error e :=
  C9_bad_shared_index [] [[⟨some "A1", some "s", some (some "0"), none⟩]] "f.xlsx"
    ⟨[⟨some "A1", some "s", some (some "0"), none⟩], List.mem_singleton.mpr rfl,
      ⟨some "A1", some "s", some (some "0"), none⟩, List.mem_singleton.mpr rfl,
      rfl, "0", rfl, by decide, 0, by decide, Or.inr (by decide)⟩
